import Mathlib

/-!
# Verification of the SATrans MMOE_MT / MMOE_MT_ATT model code

Shallow embedding of `src/models/mmoe_mt.py` and `src/models/mmoe_mt_att.py`.
Tensors carry rational entries; the exponential used by softmax, sigmoid and
the prediction head is an abstract parameter `e : ℚ → ℚ` (the theorems that
need it assume `∀ x, 0 < e x`, which holds for the real exponential).
External neural modules from `deepctr_torch` and from the repository files
that are not part of `src/` (`satrans.py`, `mtl_basemodel.py`) are modelled
as abstract functions with the interface the two forward passes rely on.
-/

set_option autoImplicit false

universe u v

/-- Matrix of rationals, stored as a list of rows (a rank-2 tensor). -/
abbrev M2 : Type := List (List ℚ)

/-- Rank-3 tensor of rationals, stored as a list of matrices. -/
abbrev M3 : Type := List M2

/-! ## Generic list helpers -/

/-- Dot product of two equal-length vectors. -/
def dotQ (a b : List ℚ) : ℚ := (List.zipWith (· * ·) a b).sum

/-- Matrix–vector product `W @ v` (`torch.nn.Linear` with `bias=False`). -/
def matvec (W : M2) (v : List ℚ) : List ℚ := W.map (fun r => dotQ r v)

/-- Rectified linear unit (`torch.nn.ReLU`). -/
def reluQ (x : ℚ) : ℚ := max x 0

/-- Logistic sigmoid `1 / (1 + exp (-x))` (`torch.sigmoid` / `torch.nn.Sigmoid`),
with the exponential supplied as the abstract parameter `e`. -/
def sigmoidQ (e : ℚ → ℚ) (x : ℚ) : ℚ := 1 / (1 + e (-x))

/-- Row-wise softmax `exp xi / Σ exp xj` (`Tensor.softmax` applied to one row),
with the exponential supplied as the abstract parameter `e`. -/
def softmaxQ (e : ℚ → ℚ) (v : List ℚ) : List ℚ :=
  v.map (fun x => e x / (v.map e).sum)

/-- Entry `j` of the product `(1, E) @ (E, d)`: the weighted sum
`Σ_k w_k * m_{k,j}` of the rows of `m` under the weights `w`
(`torch.matmul` of the unsqueezed gate vector with the stacked experts). -/
def wsum (w : List ℚ) (m : M2) : List ℚ :=
  (List.range (m.headD []).length).map
    (fun j => (List.zipWith (fun wk r => wk * r.getD j 0) w m).sum)

/-- Sequence a fallible function over a list, failing if any element fails
(the behaviour of a PyTorch op that raises on the first bad element). -/
def optMapAll {α : Type u} {β : Type v} (f : α → Option β) : List α → Option (List β)
  | [] => some []
  | a :: as =>
    match f a, optMapAll f as with
    | some b, some bs => some (b :: bs)
    | _, _ => none

/-- Python's substring membership test `needle in haystack` for strings. -/
def pythonInStr (needle haystack : String) : Bool :=
  decide (needle.toList <:+: haystack.toList)

/-! ## Constructor model

Both `MMOE_MT.__init__` (mmoe_mt.py lines 47-137) and `MMOE_MT_ATT.__init__`
(mmoe_mt_att.py lines 47-138) run the same validation and domain-handling
code, so one embedding covers both. -/

/-- A feature column; only the `name` attribute is consulted by the code under
verification (`filter_feature_columns`). -/
structure Feature where
  name : String
deriving DecidableEq

/-- The distinct `ValueError` branches of the constructors
(mmoe_mt.py lines 59-70, identical in mmoe_mt_att.py). -/
inductive InitCheckError where
  | numTasksTooSmall
  | numExpertsTooSmall
  | emptyFeatureColumns
  | taskTypesLengthMismatch
  | illegalTaskType (t : String)
deriving DecidableEq

/-- Constructor-time argument validation, in the order the Python code runs it
(mmoe_mt.py lines 55-70): `num_tasks = len(task_names)`, then the four `if`
checks and the task-type loop.  Returns the first error raised, if any. -/
def checkArgs (numExperts : Int) (dnnFeatureColumns : List Feature)
    (taskTypes taskNames : List String) : Option InitCheckError :=
  if taskNames.length ≤ 1 then some .numTasksTooSmall
  else if numExperts ≤ 1 then some .numExpertsTooSmall
  else if dnnFeatureColumns.length = 0 then some .emptyFeatureColumns
  else if taskTypes.length ≠ taskNames.length then some .taskTypesLengthMismatch
  else
    match taskTypes.find? (fun t => !(t == "binary" || t == "regression")) with
    | some t => some (.illegalTaskType t)
    | none => none

/-- Arguments of the constructors that the embedded logic consults. -/
structure InitArgs where
  dnnFeatureColumns : List Feature
  numDomains : Nat
  numExperts : Int
  taskTypes : List String
  taskNames : List String
  domainColumn : String
  flag : Option String
  domainIdAsFeature : Bool

/-- The attributes relevant to the claims that a successfully constructed
model carries.  `dnnFeatureColumns` is `self.dnn_feature_columns`, stored by
the `BaseModel` super-constructor from the original argument (modelled from
the spec: `mtl_basemodel.py` is not under `src/`; the spec describes the base
model as providing input feature handling for the supplied feature columns).
`domainEmbeddingRows` records the first argument of
`nn.Embedding(num_domains+1, embedding_size)` (mmoe_mt.py line 130). -/
structure ModelState where
  dnnFeatureColumns : List Feature
  domainColumn : String
  flag : String
  numTasks : Nat
  numExperts : Int
  domainEmbeddingRows : Nat
deriving DecidableEq

/-- `MMOE_MT.filter_feature_columns` (mmoe_mt.py lines 203-204, identical in
mmoe_mt_att.py lines 213-214): keeps the features whose `name` is not `in`
`filtered_col_names`.  At the call site `filtered_col_names` is the
`domain_column` string, so Python's `in` is the substring test. -/
def filter_feature_columns (featureColumns : List Feature)
    (filteredColNames : String) : List Feature :=
  featureColumns.filter (fun f => !(pythonInStr f.name filteredColNames))

/-- Possible outcomes of running a constructor. -/
inductive InitOutcome where
  | ok (s : ModelState)
  | valueErr (e : InitCheckError)
  | typeErr
deriving DecidableEq

/-- The constructor of `MMOE_MT` / `MMOE_MT_ATT`: validation first
(lines 59-70), then the membership test `'usetrans' in self.flag` (line 78),
which raises `TypeError` when `flag` is `None`; afterwards the layers are
built and the domain branch (lines 122-130) runs.  When
`domain_id_as_feature` is false, `filter_feature_columns` only rebinds the
local variable `dnn_feature_columns`; `self.dnn_feature_columns` is never
reassigned. -/
def initMMOE (a : InitArgs) : InitOutcome :=
  match checkArgs a.numExperts a.dnnFeatureColumns a.taskTypes a.taskNames with
  | some err => .valueErr err
  | none =>
    match a.flag with
    | none => .typeErr
    | some f =>
      .ok ⟨a.dnnFeatureColumns, a.domainColumn, f, a.taskNames.length,
           a.numExperts, a.numDomains + 1⟩

/-- The local variable `dnn_feature_columns` after the domain branch
(mmoe_mt.py lines 122-126): when `domain_id_as_feature` is false it is
rebound to the filtered list, but it is only a local — `__init__` drops it,
and `self.dnn_feature_columns` (the `dnnFeatureColumns` field of the
resulting `ModelState`) is never reassigned. -/
def initLocalColumns (a : InitArgs) : List Feature :=
  if a.domainIdAsFeature then a.dnnFeatureColumns
  else filter_feature_columns a.dnnFeatureColumns a.domainColumn

/-- The feature-column list that `forward` hands to
`input_from_feature_columns` (mmoe_mt.py lines 139-141): it reads
`self.dnn_feature_columns`, not the filtered local list of the constructor. -/
def forwardInputFeatures (s : ModelState) : List Feature :=
  s.dnnFeatureColumns

/-! ## Tensor model

The forward passes manipulate tensors of rank 0 to 3.  `Tsr` represents a
tensor by its nested rows; the fallible operations return `none` exactly
where PyTorch raises (rank or dimension mismatch).  Broadcasting for
element-wise multiplication is implemented for the shape combinations that
these forward passes can produce. -/

/-- A tensor of rank at most 3. -/
inductive Tsr where
  | r0 (x : ℚ)
  | r1 (v : List ℚ)
  | r2 (m : M2)
  | r3 (c : M3)
deriving DecidableEq

/-- Rank of a tensor value. -/
def rankTsr : Tsr → Nat
  | .r0 _ => 0
  | .r1 _ => 1
  | .r2 _ => 2
  | .r3 _ => 3

/-- Dimensions `(b, m, d)` of a rank-3 tensor, or `none` if it is ragged. -/
def dims3 (c : M3) : Option (Nat × Nat × Nat) :=
  let b := c.length
  let m := (c.headD []).length
  let d := ((c.headD []).headD []).length
  if c.all (fun r => r.length = m && r.all (fun v => v.length = d)) then
    some (b, m, d)
  else none

/-- `Tensor.squeeze()` on a rank-3 tensor: every dimension of size 1 is
removed; the flat data is unchanged.  The rank-2 result regroups the data by
the two remaining dimensions. -/
def squeeze3 (c : M3) : Option Tsr :=
  match dims3 c with
  | none => none
  | some (b, m, d) =>
    let flat := c.flatten.flatten
    match [b, m, d].filter (fun n => n != 1) with
    | [] => some (.r0 (flat.headD 0))
    | [_] => some (.r1 flat)
    | [_, _] => some (.r2 (if c.length = 1 then c.headD [] else c.map List.flatten))
    | _ => some (.r3 c)

/-- Apply a module that consumes vectors of width `inDim` along the last
dimension of a tensor (a `DNN` block or an `nn.Linear`); PyTorch raises when
the last dimension differs from the module's input width, and on a rank-0
input. -/
def applyLastTT (inDim : Nat) (f : List ℚ → List ℚ) : Tsr → Option Tsr
  | .r0 _ => none
  | .r1 v => if v.length = inDim then some (.r1 (f v)) else none
  | .r2 m =>
    if m.all (fun r => r.length = inDim) then some (.r2 (m.map f)) else none
  | .r3 c =>
    if c.all (fun r => r.all (fun v => v.length = inDim)) then
      some (.r3 (c.map (fun r => r.map f)))
    else none

/-- Element-wise map over a tensor (activations, `PredictionLayer`). -/
def mapTT (f : ℚ → ℚ) : Tsr → Tsr
  | .r0 x => .r0 (f x)
  | .r1 v => .r1 (v.map f)
  | .r2 m => .r2 (m.map (fun r => r.map f))
  | .r3 c => .r3 (c.map (fun r => r.map (fun v => v.map f)))

/-- Element-wise product of two rank-2 tensors under PyTorch broadcasting,
for the row-count combinations reachable here (equal row counts, or one
operand with a single row). -/
def mulR2 (m n : M2) : Option Tsr :=
  if m.length = n.length then
    if (List.zipWith (fun a b => a.length == b.length) m n).all id then
      some (.r2 (List.zipWith (fun a b => List.zipWith (· * ·) a b) m n))
    else none
  else if m.length = 1 then
    if n.all (fun r => r.length = (m.headD []).length) then
      some (.r2 (n.map (fun r => List.zipWith (· * ·) (m.headD []) r)))
    else none
  else if n.length = 1 then
    if m.all (fun r => r.length = (n.headD []).length) then
      some (.r2 (m.map (fun r => List.zipWith (· * ·) r (n.headD []))))
    else none
  else none

/-- Element-wise (broadcasting) product `a * b` of two tensors, for the rank
combinations these forward passes can produce. -/
def mulTT : Tsr → Tsr → Option Tsr
  | .r1 v, .r1 u =>
    if v.length = u.length then some (.r1 (List.zipWith (· * ·) v u)) else none
  | .r1 v, .r2 m =>
    if m.all (fun r => r.length = v.length) then
      some (.r2 (m.map (fun r => List.zipWith (· * ·) v r)))
    else none
  | .r2 m, .r1 v =>
    if m.all (fun r => r.length = v.length) then
      some (.r2 (m.map (fun r => List.zipWith (· * ·) r v)))
    else none
  | .r2 m, .r2 n => mulR2 m n
  | _, _ => none

/-- View a tensor as rank 1. -/
def asR1 : Tsr → Option (List ℚ)
  | .r1 v => some v
  | _ => none

/-- View a tensor as rank 2. -/
def asR2 : Tsr → Option M2
  | .r2 m => some m
  | _ => none

/-- `torch.cat` of rank-2 tensors along the last dimension: the row counts
must agree; each output row is the concatenation of the input rows. -/
def catR2 (ms : List M2) : Option M2 :=
  if ms.isEmpty then none
  else if ms.all (fun x => x.length = (ms.headD []).length) then
    some (ms.foldr (fun a acc => List.zipWith (· ++ ·) a acc)
      (List.replicate (ms.headD []).length ([] : List ℚ)))
  else none

/-- `torch.cat(task_outs, -1)` for the rank combinations the task outputs can
have: a list of rank-1 tensors concatenates into one rank-1 tensor; a list of
rank-2 tensors concatenates row-wise.  PyTorch raises on an empty list or on
mixed ranks. -/
def catLastTT (ts : List Tsr) : Option Tsr :=
  match optMapAll asR1 ts with
  | some vs => if vs.isEmpty then none else some (.r1 vs.flatten)
  | none =>
    match optMapAll asR2 ts with
    | some ms => (catR2 ms).map .r2
    | none => none

/-! ## Forward-pass model

The configuration and learned modules of a constructed model.  External
library modules (`DNN`, the final `nn.Linear` layers, the embedding lookup of
`input_from_feature_columns`) are abstract functions; the self-attention and
target-attention layers come from `satrans.py`, which is not under `src/`,
and are modelled from the spec as abstract learned maps ("a learned weighting
mechanism computing relevance scores between query and key representations")
with the shapes the call sites rely on.  The LHUC blocks, the softmax, the
squeeze, the element-wise products and `PredictionLayer` are concrete. -/

structure MParams where
  /-- `num_experts`. -/
  E : Nat
  /-- `num_tasks = len(task_names)`. -/
  T : Nat
  /-- `self.flag`. -/
  flag : String
  /-- `expert_dnn_hidden_units[-1]`, the width of each expert's output. -/
  expertDim : Nat
  /-- `len(tower_dnn_hidden_units) > 0`. -/
  towerNonempty : Bool
  /-- `tower_dnn_hidden_units[-1]`, the width of each tower's output. -/
  towerDim : Nat
  /-- `len(gate_dnn_hidden_units) > 0`. -/
  gateNonempty : Bool
  /-- `task_types[i]`, read by `PredictionLayer`. -/
  taskTypes : Nat → String
  /-- The learned bias of `PredictionLayer` for task `i` (`use_bias=True`). -/
  predBias : Nat → ℚ
  /-- `num_domains`. -/
  numDomains : Nat
  /-- `self.feature_index[self.domain_column][0]`, the column of `X` holding
  the domain id. -/
  domainIdx : Nat
  /-- The rows of `self.domain_embeddings.weight`
  (`nn.Embedding(num_domains+1, embedding_size)`). -/
  domainTable : Nat → List ℚ
  /-- Per row of `X`, the list of sparse feature embeddings produced by
  `input_from_feature_columns` (one vector per feature field). -/
  sparseF : List ℚ → M2
  /-- Per row of `X`, the value vectors of the dense features. -/
  denseFs : List (List ℚ → List ℚ)
  /-- The three `SelfAttention_Layer`s of `self.int_layers` (modelled from
  the spec: field matrix to field matrix). -/
  attF : Nat → M2 → M2
  /-- `self.expert_dnn[k]`. -/
  expertF : Nat → List ℚ → List ℚ
  /-- `self.gate_dnn[i]`. -/
  gateF : Nat → List ℚ → List ℚ
  /-- `self.gate_dnn_final_layer[i]`. -/
  gateFinalF : Nat → List ℚ → List ℚ
  /-- `self.tower_dnn[i]`. -/
  towerF : Nat → List ℚ → List ℚ
  /-- `self.tower_dnn_final_layer[i]`. -/
  towerFinalF : Nat → List ℚ → List ℚ
  /-- First linear layer of `MMOE_MT.lhuc` (`nn.Linear(embedding_size, 128,
  bias=False)`). -/
  lhucW1 : M2
  /-- Second linear layer of `MMOE_MT.lhuc` (`nn.Linear(128, 64, bias=False)`). -/
  lhucW2 : M2
  /-- First linear layer of `MMOE_MT_ATT.lhuc[i]`. -/
  lhucW1i : Nat → M2
  /-- Second linear layer of `MMOE_MT_ATT.lhuc[i]`. -/
  lhucW2i : Nat → M2
  /-- `MMOE_MT_ATT.target_attention[i]` (modelled from the spec: target
  attention between the task representation batch and the domain embedding
  batch). -/
  attB : Nat → M2 → M2 → M2
  /-- The exponential function used by softmax and sigmoid. -/
  e : ℚ → ℚ

/-- Concatenated dense values of one row (`concat_fun(dense_value_list, 1)`
restricted to a single row). -/
def denseCat (p : MParams) (row : List ℚ) : List ℚ :=
  (p.denseFs.map (fun f => f row)).flatten

/-- The DNN input of one batch row (mmoe_mt.py lines 144-157, identical in
mmoe_mt_att.py lines 145-157).  When `'usetrans' in self.flag`, the sparse
embeddings are concatenated along the field dimension, passed through the
three stacked self-attention layers, flattened, and concatenated with the
dense values when dense features exist; otherwise
`combined_dnn_input(sparse_embedding_list, dense_value_list)` flattens the
sparse embeddings and appends the dense values. -/
def rowDnnInput (p : MParams) (row : List ℚ) : List ℚ :=
  if pythonInStr "usetrans" p.flag then
    let a := (p.attF 2 (p.attF 1 (p.attF 0 (p.sparseF row)))).flatten
    if p.denseFs.isEmpty then a else a ++ denseCat p row
  else
    (p.sparseF row).flatten ++ denseCat p row

/-- The DNN-input matrix of the whole batch. -/
def mkDnnInputs (p : MParams) (X : M2) : M2 := X.map (rowDnnInput p)

/-- The expert outputs of one row: row `k` of the slice of
`expert_outs = torch.stack([expert_dnn[k](dnn_input)], 1)` belonging to this
batch row (mmoe_mt.py lines 160-164). -/
def rowExperts (p : MParams) (inp : List ℚ) : M2 :=
  (List.range p.E).map (fun k => p.expertF k inp)

/-- The stacked expert-output tensor `(bs, num_experts, dim)`. -/
def expertsOf (p : MParams) (inputs : M2) : M3 :=
  inputs.map (rowExperts p)

/-- The gate weights of task `i` on one row: softmax of the gate DNN's final
linear layer (mmoe_mt.py lines 169-174); the gate DNN is skipped when
`gate_dnn_hidden_units` is empty. -/
def rowGateWeights (p : MParams) (i : Nat) (inp : List ℚ) : List ℚ :=
  softmaxQ p.e
    (if p.gateNonempty then p.gateFinalF i (p.gateF i inp) else p.gateFinalF i inp)

/-- The gated expert mixture of task `i` on one row:
`torch.matmul(gate.softmax(1).unsqueeze(1), expert_outs)` restricted to one
batch row. -/
def rowMix (p : MParams) (i : Nat) (inp : List ℚ) : List ℚ :=
  wsum (rowGateWeights p i inp) (rowExperts p inp)

/-- The `(bs, 1, dim)` tensor `gate_mul_expert` of task `i` before
`.squeeze()` (mmoe_mt.py line 174). -/
def mmoePre (p : MParams) (inputs : M2) (i : Nat) : M3 :=
  inputs.map (fun inp => [rowMix p i inp])

/-- `.long()` truncation of a tensor value toward zero. -/
def truncQ (q : ℚ) : Int :=
  if 0 ≤ q then Int.ofNat (q.num.toNat / q.den) else -Int.ofNat ((-q.num).toNat / q.den)

/-- Lookup into `nn.Embedding(num_domains+1, embedding_size)`: in bounds iff
`0 ≤ id < num_domains + 1`; PyTorch raises otherwise. -/
def domainLookup (numDomains : Nat) (table : Nat → List ℚ) (id : Int) :
    Option (List ℚ) :=
  if 0 ≤ id ∧ id < (numDomains : Int) + 1 then some (table id.toNat) else none

/-- The batched domain-embedding lookup
`self.domain_embeddings(X[:, feature_index[domain_column][0]].long())`
(mmoe_mt.py lines 179-180, mmoe_mt_att.py lines 189-190). -/
def dembsOf (p : MParams) (X : M2) : Option M2 :=
  optMapAll
    (fun row => domainLookup p.numDomains p.domainTable (truncQ (row.getD p.domainIdx 0)))
    X

/-- `MMOE_MT`'s LHUC block applied to one domain embedding: Linear, ReLU,
Linear, Sigmoid (mmoe_mt.py lines 131-136, 182-184) and then the final
`lhuc_output = lhuc_output*2` (line 185). -/
def lhucRowMT (e : ℚ → ℚ) (W1 W2 : M2) (emb : List ℚ) : List ℚ :=
  ((matvec W2 ((matvec W1 emb).map reluQ)).map (sigmoidQ e)).map (· * 2)

/-- `MMOE_MT_ATT`'s per-task LHUC block applied to one attention output:
Linear, ReLU, Linear, Sigmoid (mmoe_mt_att.py lines 131-136, 201-202); no
doubling is applied in this model. -/
def lhucRowATT (e : ℚ → ℚ) (W1 W2 : M2) (v : List ℚ) : List ℚ :=
  (matvec W2 ((matvec W1 v).map reluQ)).map (sigmoidQ e)

/-- `PredictionLayer(task)` on one logit: add the learned bias, then apply
sigmoid when the task is `'binary'` (identity for `'regression'`). -/
def predQ (e : ℚ → ℚ) (task : String) (bias x : ℚ) : ℚ :=
  if task = "binary" then sigmoidQ e (x + bias) else x + bias

/-- The rescaling matrix `MMOE_MT_ATT` applies to task `i`'s tower
activations: the target-attention output for (tower batch, domain-embedding
batch), passed row-wise through task `i`'s own LHUC block
(mmoe_mt_att.py lines 199-202). -/
def attFactorRows (p : MParams) (i : Nat) (towerRows dembs : M2) : M2 :=
  (p.attB i towerRows dembs).map (lhucRowATT p.e (p.lhucW1i i) (p.lhucW2i i))

/-- Task `i`'s output tensor in `MMOE_MT.forward` (mmoe_mt.py lines 190-199):
squeeze the gated mixture, run the tower DNN when configured, rescale by the
LHUC output, apply the final linear layer and the prediction head. -/
def taskOutMT (p : MParams) (inputs : M2) (lh : Tsr) (i : Nat) : Option Tsr :=
  (squeeze3 (mmoePre p inputs i)).bind (fun mm =>
    if p.towerNonempty then
      (applyLastTT p.expertDim (p.towerF i) mm).bind (fun t =>
        (mulTT t lh).bind (fun tm =>
          (applyLastTT p.towerDim (p.towerFinalF i) tm).map
            (mapTT (predQ p.e (p.taskTypes i) (p.predBias i)))))
    else
      (applyLastTT p.expertDim (p.towerFinalF i) mm).map
        (mapTT (predQ p.e (p.taskTypes i) (p.predBias i))))

/-- `MMOE_MT.forward` (mmoe_mt.py lines 138-202): build the DNN inputs, look
up the domain embeddings, run the shared LHUC block, compute every task's
output and concatenate them along the last dimension. -/
def forwardMT (p : MParams) (X : M2) : Option Tsr :=
  let inputs := mkDnnInputs p X
  (dembsOf p X).bind (fun dembs =>
    let lh : Tsr := .r2 (dembs.map (lhucRowMT p.e p.lhucW1 p.lhucW2))
    (optMapAll (fun i => taskOutMT p inputs lh i) (List.range p.T)).bind
      catLastTT)

/-- Task `i`'s output tensor in `MMOE_MT_ATT.forward`
(mmoe_mt_att.py lines 196-209): like `MMOE_MT` but the rescaling factor is
the target-attention output fed through task `i`'s own LHUC block; the
attention layer consumes the rank-2 tower batch. -/
def taskOutATT (p : MParams) (inputs dembs : M2) (i : Nat) : Option Tsr :=
  (squeeze3 (mmoePre p inputs i)).bind (fun mm =>
    if p.towerNonempty then
      (applyLastTT p.expertDim (p.towerF i) mm).bind (fun t =>
        (asR2 t).bind (fun m =>
          (mulTT (.r2 m) (.r2 (attFactorRows p i m dembs))).bind (fun tm =>
            (applyLastTT p.towerDim (p.towerFinalF i) tm).map
              (mapTT (predQ p.e (p.taskTypes i) (p.predBias i))))))
    else
      (applyLastTT p.expertDim (p.towerFinalF i) mm).map
        (mapTT (predQ p.e (p.taskTypes i) (p.predBias i))))

/-- `MMOE_MT_ATT.forward` (mmoe_mt_att.py lines 139-212). -/
def forwardATT (p : MParams) (X : M2) : Option Tsr :=
  let inputs := mkDnnInputs p X
  (dembsOf p X).bind (fun dembs =>
    (optMapAll (fun i => taskOutATT p inputs dembs i) (List.range p.T)).bind
      catLastTT)

/-! ## Row-level specifications

Per-row closed forms of the two forward passes, used to state what the batch
pipeline computes. -/

/-- The domain-embedding row selected for one batch row. -/
def domainEmbRow (p : MParams) (row : List ℚ) : List ℚ :=
  p.domainTable (truncQ (row.getD p.domainIdx 0)).toNat

/-- Column `i` of `MMOE_MT.forward` on one batch row: task `i`'s prediction
after its `PredictionLayer`. -/
def rowPredMT (p : MParams) (row : List ℚ) (i : Nat) : ℚ :=
  let inp := rowDnnInput p row
  let mix := rowMix p i inp
  let y :=
    if p.towerNonempty then
      (p.towerFinalF i
        (List.zipWith (· * ·) (p.towerF i mix)
          (lhucRowMT p.e p.lhucW1 p.lhucW2 (domainEmbRow p row)))).headD 0
    else (p.towerFinalF i mix).headD 0
  predQ p.e (p.taskTypes i) (p.predBias i) y

/-- The batch of tower outputs of task `i` in `MMOE_MT_ATT.forward`. -/
def towerMatATT (p : MParams) (X : M2) (i : Nat) : M2 :=
  (mkDnnInputs p X).map (fun inp => p.towerF i (rowMix p i inp))

/-- The batch of domain-embedding rows. -/
def domainMat (p : MParams) (X : M2) : M2 := X.map (domainEmbRow p)

/-- Entry `(r, i)` of `MMOE_MT_ATT.forward` when towers are configured: task
`i`'s prediction for batch row `r`, whose rescaling factor is row `r` of the
target-attention output fed through task `i`'s LHUC block. -/
def attValATT (p : MParams) (X : M2) (i r : Nat) : ℚ :=
  predQ p.e (p.taskTypes i) (p.predBias i)
    ((p.towerFinalF i
      (List.zipWith (· * ·) ((towerMatATT p X i).getD r [])
        ((attFactorRows p i (towerMatATT p X i) (domainMat p X)).getD r []))).headD 0)

/-! ## Well-formedness of a constructed model

Shape laws that hold for any model instance PyTorch actually constructs:
module output widths match the layer widths they are built with, the
constructor validation has passed (`num_tasks > 1`, `num_experts > 1`), the
last expert width is at least 2, the LHUC output width is the literal 64 of
`nn.Linear(128, 64)` and the tower width equals it (required for the
element-wise rescaling to broadcast), the target attention returns one row
per query row, and the exponential is positive. -/

structure MLaws (p : MParams) : Prop where
  numExpertsGe : 2 ≤ p.E
  numTasksGe : 2 ≤ p.T
  expertDimGe : 2 ≤ p.expertDim
  expertLen : ∀ k v, (p.expertF k v).length = p.expertDim
  gateFinalLen : ∀ i v, (p.gateFinalF i v).length = p.E
  towerLen : ∀ i v, (p.towerF i v).length = p.towerDim
  towerFinalLen : ∀ i v, (p.towerFinalF i v).length = 1
  lhucW2Len : p.lhucW2.length = 64
  lhucW2iLen : ∀ i, (p.lhucW2i i).length = 64
  towerDim64 : p.towerDim = 64
  attRowsLen : ∀ i m d, (p.attB i m d).length = m.length
  ePos : ∀ x, 0 < p.e x

/-- Batch well-formedness: the domain column exists in every row and every
domain id is in range for the embedding table. -/
def XOk (p : MParams) (X : M2) : Prop :=
  ∀ row ∈ X, p.domainIdx < row.length ∧
    0 ≤ truncQ (row.getD p.domainIdx 0) ∧
    truncQ (row.getD p.domainIdx 0) ≤ (p.numDomains : Int)

/-! ## Concrete instances used by witnesses and counterexamples -/

/-- Valid constructor arguments with `flag='sota'`. -/
def flagWitnessArgs : InitArgs :=
  ⟨[⟨"f0"⟩], 3, 3, ["binary", "binary"], ["ctr", "ctcvr"], "301", some "sota", false⟩
/-- Constructor arguments with `flag=None` but `num_experts = 0`. -/
def flagCexArgs : InitArgs :=
  ⟨[⟨"f0"⟩], 3, 0, ["binary", "binary"], ["ctr", "ctcvr"], "301", none, false⟩
/-- Concrete constructor arguments whose feature list contains the domain
column `'301'`. -/
def domainColArgs : InitArgs :=
  ⟨[⟨"301"⟩, ⟨"user"⟩], 3, 3, ["binary", "binary"], ["ctr", "ctcvr"], "301",
    some "sota", false⟩
/-- The model state `domainColArgs` constructs. -/
def domainColState : ModelState := ⟨[⟨"301"⟩, ⟨"user"⟩], "301", "sota", 2, 3, 4⟩

/-- A small concrete model configuration (2 tasks, 2 experts, expert width 2,
tower width 64, no gate hidden layers, regression heads, identity attention,
constant exponential 1) satisfying all shape laws; used to evaluate the
theorems on concrete inputs. -/
def mkSimpleP (flag : String) (tower : Bool) : MParams :=
  ⟨2, 2, flag, 2, tower, 64, false,
   fun _ => "regression",
   fun _ => 0,
   1, 0,
   fun _ => [1, 1],
   fun _ => [[1, 1]],
   [],
   fun _ m => m,
   fun k _ => [(k : ℚ), 1],
   fun _ v => v,
   fun _ _ => [0, 0],
   fun _ _ => List.replicate 64 1,
   fun _ v => [v.sum],
   [[0, 0]],
   List.replicate 64 [(0 : ℚ)],
   fun _ => [[0, 0]],
   fun _ => List.replicate 64 [(0 : ℚ)],
   fun _ m _ => m.map (fun _ => ([0, 0] : List ℚ)),
   fun _ => 1⟩

/-- The simple configuration with a flag that does not contain `usetrans`. -/
def concreteP : MParams := mkSimpleP "sota" true

/-- The simple configuration with an empty `tower_dnn_hidden_units` list. -/
def noTowerP : MParams := mkSimpleP "sota" false

/-- A concrete two-row batch whose domain ids are 0 and 1. -/
def concreteX : M2 := [[0], [1]]

/-- A concrete single-row batch (batch size 1) with domain id 0. -/
def noTowerX : M2 := [[0]]


/-! ## Theorems -/

/-! ## C1: constructor-time argument validation -/

/-- C1 (amended).  The constructors of `MMOE_MT` and `MMOE_MT_ATT` raise
`ValueError` when `len(task_names) <= 1` or `num_experts <= 1` (hence in
particular for all non-positive counts) or when some entry of `task_types`
is neither `'binary'` nor `'regression'`; and whenever `len(task_names) >= 2`
and `num_experts >= 2` and all task types are `'binary'`/`'regression'`,
none of these three particular checks fires (the remaining checks on
`dnn_feature_columns` and on `len(task_types)` may still raise). -/
theorem init_validation_characterization
    (ne : Int) (fc : List Feature) (tt tn : List String) :
    (tn.length ≤ 1 → checkArgs ne fc tt tn = some .numTasksTooSmall) ∧
    (1 < tn.length → ne ≤ 1 → checkArgs ne fc tt tn = some .numExpertsTooSmall) ∧
    ((∃ t ∈ tt, t ≠ "binary" ∧ t ≠ "regression") → checkArgs ne fc tt tn ≠ none) ∧
    (2 ≤ tn.length → 2 ≤ ne → (∀ t ∈ tt, t = "binary" ∨ t = "regression") →
      checkArgs ne fc tt tn ≠ some .numTasksTooSmall ∧
      checkArgs ne fc tt tn ≠ some .numExpertsTooSmall ∧
      ∀ t, checkArgs ne fc tt tn ≠ some (.illegalTaskType t)) := by
  refine ⟨?_, ?_, ?_, ?_⟩
  · intro h
    simp [checkArgs, h]
  · intro h1 h2
    rw [checkArgs]
    rw [if_neg (by omega), if_pos h2]
  · rintro ⟨t, ht, hb, hr⟩
    rw [checkArgs]
    split
    · simp
    · split
      · simp
      · split
        · simp
        · split
          · simp
          · have : tt.find? (fun t => !(t == "binary" || t == "regression")) ≠ none := by
              rw [Ne, List.find?_eq_none]
              push_neg
              exact ⟨t, ht, by simp [hb, hr]⟩
            rcases h : tt.find? (fun t => !(t == "binary" || t == "regression")) with _ | u
            · exact absurd h this
            · simp [h]
  · intro h1 h2 h3
    rw [checkArgs]
    rw [if_neg (by omega), if_neg (by omega)]
    split
    · simp
    · split
      · simp
      · have hnone : tt.find? (fun t => !(t == "binary" || t == "regression")) = none := by
          rw [List.find?_eq_none]
          intro t ht
          rcases h3 t ht with h | h <;> simp [h]
        rw [hnone]
        simp

/-- C1 witness: with two tasks, three experts and legal task types none of
the three validation checks of the claim fires. -/
theorem init_validation_characterization_witness :
    2 ≤ (["ctr", "ctcvr"] : List String).length ∧ (2 : Int) ≤ 3 ∧
    (∀ t ∈ (["binary", "regression"] : List String),
      t = "binary" ∨ t = "regression") ∧
    checkArgs 3 [⟨"f0"⟩] ["binary", "regression"] ["ctr", "ctcvr"] ≠
      some InitCheckError.numTasksTooSmall :=
  ⟨by decide, by decide, by decide,
    ((init_validation_characterization 3 [⟨"f0"⟩] ["binary", "regression"]
      ["ctr", "ctcvr"]).2.2.2 (by decide) (by decide) (by decide)).1⟩

/-- C1 counterexample: a single task is a positive task count with a legal
task type and a positive expert count, yet the constructor raises
`ValueError` at the `num_tasks <= 1` check (mmoe_mt.py lines 59-60), so the
claim that these checks pass for every positive task count is false. -/
theorem init_single_task_rejected :
    0 < (["ctr"] : List String).length ∧ 0 < (3 : Int) ∧
    (∀ t ∈ (["binary"] : List String), t = "binary" ∨ t = "regression") ∧
    checkArgs 3 [⟨"f0"⟩] ["binary"] ["ctr"] =
      some InitCheckError.numTasksTooSmall := by
  decide

/-! ## C8: the membership test on `flag` -/

/-- C8 (amended).  Once the `ValueError` validations pass, construction with
`flag=None` raises `TypeError` at the membership test
`'usetrans' in self.flag` (line 78), before any expert, gate or tower layer
is built; construction reaches the layer-building code exactly when `flag`
is an actual string. -/
theorem init_flag_none_type_error
    (a : InitArgs)
    (h : checkArgs a.numExperts a.dnnFeatureColumns a.taskTypes a.taskNames = none) :
    (a.flag = none → initMMOE a = .typeErr) ∧
    (∀ f, a.flag = some f → ∃ s, initMMOE a = .ok s) ∧
    (∀ s, initMMOE a = .ok s → ∃ f, a.flag = some f) := by
  refine ⟨?_, ?_, ?_⟩
  · intro hf
    simp [initMMOE, h, hf]
  · intro f hf
    refine ⟨⟨a.dnnFeatureColumns, a.domainColumn, f, a.taskNames.length,
      a.numExperts, a.numDomains + 1⟩, ?_⟩
    simp [initMMOE, h, hf]
  · intro s hs
    rcases hflag : a.flag with _ | f
    · simp [initMMOE, h, hflag] at hs
    · exact ⟨f, rfl⟩


/-- C8 witness: with valid arguments and a string flag, construction
succeeds. -/
theorem init_flag_none_type_error_witness :
    checkArgs flagWitnessArgs.numExperts flagWitnessArgs.dnnFeatureColumns
      flagWitnessArgs.taskTypes flagWitnessArgs.taskNames = none ∧
    ∃ s, initMMOE flagWitnessArgs = .ok s :=
  ⟨by decide, (init_flag_none_type_error flagWitnessArgs (by decide)).2.1 "sota" rfl⟩


/-- C8 counterexample: with `flag=None` and `num_experts=0` the constructor
raises `ValueError` at the `num_experts <= 1` check before reaching the
membership test, so `flag=None` does not always produce a `TypeError`. -/
theorem init_flag_none_not_always_type_error :
    flagCexArgs.flag = none ∧
    initMMOE flagCexArgs = .valueErr InitCheckError.numExpertsTooSmall ∧
    initMMOE flagCexArgs ≠ .typeErr := by
  decide

/-! ## C10: `filter_feature_columns` is pure and only rebinds a local -/

/-- C10.  `filter_feature_columns` is pure and returns the order-preserving
sublist of features whose name is not `in` the filtered names; the
constructor stores the original `dnn_feature_columns` on the model
regardless of `domain_id_as_feature`, so `forward` still embeds the domain
column as an ordinary feature (besides its separate use for the domain
embedding lookup). -/
theorem filter_feature_columns_local
    : (∀ (fc : List Feature) (names : String),
        List.Sublist (filter_feature_columns fc names) fc ∧
        (∀ f, f ∈ filter_feature_columns fc names ↔
          f ∈ fc ∧ pythonInStr f.name names = false)) ∧
      (∀ (a : InitArgs) (s : ModelState), initMMOE a = .ok s →
        s.dnnFeatureColumns = a.dnnFeatureColumns ∧
        forwardInputFeatures s = a.dnnFeatureColumns) ∧
      (∀ (a : InitArgs) (s : ModelState) (df : Feature), initMMOE a = .ok s →
        a.domainIdAsFeature = false → df ∈ a.dnnFeatureColumns →
        df ∈ forwardInputFeatures s) := by
  have hok : ∀ (a : InitArgs) (s : ModelState), initMMOE a = .ok s →
      s.dnnFeatureColumns = a.dnnFeatureColumns := by
    intro a s hs
    simp only [initMMOE] at hs
    split at hs
    · simp at hs
    · split at hs
      · simp at hs
      · rw [show (InitOutcome.ok _ = InitOutcome.ok s) = _ from rfl] at hs
        cases hs
        rfl
  refine ⟨?_, ?_, ?_⟩
  · intro fc names
    refine ⟨List.filter_sublist _, ?_⟩
    intro f
    rw [filter_feature_columns, List.mem_filter]
    simp
  · intro a s hs
    exact ⟨hok a s hs, hok a s hs⟩
  · intro a s df hs _ hdf
    rw [forwardInputFeatures, hok a s hs]
    exact hdf



/-- C10 witness: a concrete successful construction keeps the domain column
among the features that `forward` embeds. -/
theorem filter_feature_columns_local_witness :
    initMMOE domainColArgs = .ok domainColState ∧
    (⟨"301"⟩ : Feature) ∈ forwardInputFeatures domainColState :=
  ⟨by decide,
    filter_feature_columns_local.2.2 domainColArgs domainColState ⟨"301"⟩
      (by decide) rfl (by decide)⟩

/-! ## Helper lemmas about `optMapAll` -/

theorem optMapAll_isSome {α : Type u} {β : Type v} (f : α → Option β)
    (l : List α) :
    (optMapAll f l).isSome = true ↔ ∀ a ∈ l, (f a).isSome = true := by
  induction l with
  | nil => simp [optMapAll]
  | cons a as ih =>
    rcases h : f a with _ | b
    · simp [optMapAll, h]
    · rcases h2 : optMapAll f as with _ | bs
      · rw [h2] at ih
        simp only [optMapAll, h, h2]
        simp only [Option.isSome_none, Bool.false_eq_true, false_iff] at ih ⊢
        push_neg at ih ⊢
        rcases ih with ⟨x, hx, hfx⟩
        exact ⟨x, by simp [hx], hfx⟩
      · rw [h2] at ih
        simp only [optMapAll, h, h2]
        simp only [Option.isSome_some, true_iff] at ih
        simp only [Option.isSome_some, true_iff]
        intro x hx
        rcases List.mem_cons.mp hx with rfl | hx
        · simp [h]
        · exact ih x hx

theorem optMapAll_eq_map {α : Type u} {β : Type v} (f : α → Option β)
    (g : α → β) (l : List α) (h : ∀ a ∈ l, f a = some (g a)) :
    optMapAll f l = some (l.map g) := by
  induction l with
  | nil => rfl
  | cons a as ih =>
    have ha := h a (List.mem_cons_self a as)
    have has := ih (fun x hx => h x (List.mem_cons_of_mem a hx))
    simp only [optMapAll, ha, has, List.map_cons]

/-! ## C9: bounds of the domain-embedding lookup -/

/-- C9.  The embedding table is built with `num_domains + 1` rows
(mmoe_mt.py line 130), so the forward lookup succeeds iff every batch row's
truncated domain id lies in `[0, num_domains]`; `num_domains` itself is
accepted and `num_domains + 1` is out of bounds. -/
theorem domain_embedding_bounds :
    (∀ (a : InitArgs) (s : ModelState), initMMOE a = .ok s →
      s.domainEmbeddingRows = a.numDomains + 1) ∧
    (∀ (nd : Nat) (tbl : Nat → List ℚ) (id : Int),
      (domainLookup nd tbl id).isSome = true ↔ 0 ≤ id ∧ id ≤ (nd : Int)) ∧
    (∀ (p : MParams) (X : M2),
      (dembsOf p X).isSome = true ↔
        ∀ row ∈ X, 0 ≤ truncQ (row.getD p.domainIdx 0) ∧
          truncQ (row.getD p.domainIdx 0) ≤ (p.numDomains : Int)) ∧
    (∀ (nd : Nat) (tbl : Nat → List ℚ),
      (domainLookup nd tbl (nd : Int)).isSome = true ∧
      domainLookup nd tbl ((nd : Int) + 1) = none) := by
  have hlk : ∀ (nd : Nat) (tbl : Nat → List ℚ) (id : Int),
      (domainLookup nd tbl id).isSome = true ↔ 0 ≤ id ∧ id ≤ (nd : Int) := by
    intro nd tbl id
    rw [domainLookup]
    split
    · rename_i hcond
      simp only [Option.isSome_some, true_iff]
      exact ⟨hcond.1, by omega⟩
    · rename_i hcond
      simp only [Option.isSome_none, Bool.false_eq_true, false_iff]
      intro hc
      exact hcond ⟨hc.1, by omega⟩
  refine ⟨?_, hlk, ?_, ?_⟩
  · intro a s hs
    simp only [initMMOE] at hs
    split at hs
    · simp at hs
    · split at hs
      · simp at hs
      · cases hs
        rfl
  · intro p X
    rw [dembsOf, optMapAll_isSome]
    constructor
    · intro h row hrow
      exact (hlk _ _ _).mp (h row hrow)
    · intro h row hrow
      exact (hlk _ _ _).mpr (h row hrow)
  · intro nd tbl
    constructor
    · exact (hlk nd tbl nd).mpr ⟨by omega, by omega⟩
    · rw [domainLookup, if_neg]
      omega

/-- C9 witness: the first conjunct of the bounds theorem evaluated on a
concrete construction (3 domains, 4 embedding rows). -/
theorem domain_embedding_bounds_witness :
    initMMOE domainColArgs = .ok domainColState ∧
    domainColState.domainEmbeddingRows = domainColArgs.numDomains + 1 :=
  ⟨by decide, domain_embedding_bounds.1 domainColArgs domainColState (by decide)⟩

/-! ## Softmax lemmas -/

theorem sum_map_div (l : List ℚ) (c : ℚ) :
    (l.map (fun x => x / c)).sum = l.sum / c := by
  induction l with
  | nil => simp
  | cons a as ih => simp [ih, add_div]

theorem softmaxQ_sum (e : ℚ → ℚ) (v : List ℚ) (he : ∀ x, 0 < e x)
    (hv : v ≠ []) : (softmaxQ e v).sum = 1 := by
  have hmap : v.map e ≠ [] := by simpa using hv
  have hs : 0 < (v.map e).sum :=
    List.sum_pos _ (by intro x hx; rcases List.mem_map.mp hx with ⟨y, _, rfl⟩; exact he y) hmap
  have : softmaxQ e v = (v.map e).map (fun x => x / (v.map e).sum) := by
    rw [softmaxQ, List.map_map]
    rfl
  rw [this, sum_map_div, div_self (ne_of_gt hs)]

theorem softmaxQ_nonneg (e : ℚ → ℚ) (v : List ℚ) (he : ∀ x, 0 < e x)
    (hv : v ≠ []) : ∀ w ∈ softmaxQ e v, 0 ≤ w := by
  have hmap : v.map e ≠ [] := by simpa using hv
  have hs : 0 < (v.map e).sum :=
    List.sum_pos _ (by intro x hx; rcases List.mem_map.mp hx with ⟨y, _, rfl⟩; exact he y) hmap
  intro w hw
  rcases List.mem_map.mp hw with ⟨x, _, rfl⟩
  exact le_of_lt (div_pos (he x) hs)

/-! ## C4: gate weights form a convex combination over the experts -/

/-- C4.  For each task the gate weights are the softmax of the gate DNN's
final linear layer, hence non-negative and summing to 1, and the mixture
passed to the tower is the weighted sum of the expert outputs under these
weights (mmoe_mt.py lines 167-175, mmoe_mt_att.py lines 168-176). -/
theorem gate_weights_convex (p : MParams) (i : Nat) (inp : List ℚ)
    (he : ∀ x, 0 < p.e x) (hE : 1 ≤ p.E)
    (hlen : ∀ j v, (p.gateFinalF j v).length = p.E) :
    (∀ w ∈ rowGateWeights p i inp, 0 ≤ w) ∧
    (rowGateWeights p i inp).sum = 1 ∧
    rowMix p i inp = wsum (rowGateWeights p i inp) (rowExperts p inp) ∧
    (∀ inputs : M2, mmoePre p inputs i =
      inputs.map (fun x => [wsum (rowGateWeights p i x) (rowExperts p x)])) := by
  have hlvne : (if p.gateNonempty then p.gateFinalF i (p.gateF i inp)
      else p.gateFinalF i inp) ≠ [] := by
    split <;>
      exact List.ne_nil_of_length_pos (by rw [hlen]; omega)
  refine ⟨?_, ?_, rfl, fun _ => rfl⟩
  · exact softmaxQ_nonneg p.e _ he hlvne
  · exact softmaxQ_sum p.e _ he hlvne

/-- C4 witness: the gate weights of the concrete model sum to 1 and the
mixture equals the weighted expert sum. -/
theorem gate_weights_convex_witness :
    (rowGateWeights concreteP 0 [1, 1]).sum = 1 ∧
    rowMix concreteP 0 [1, 1] =
      wsum (rowGateWeights concreteP 0 [1, 1]) (rowExperts concreteP [1, 1]) :=
  (fun h => ⟨h.2.1, h.2.2.1⟩)
    (gate_weights_convex concreteP 0 [1, 1] (fun _ => one_pos) (by decide)
      (fun _ _ => rfl))

/-! ## C3: range of the LHUC rescaling factors in `MMOE_MT` -/

/-- C3 (amended).  Every rescaling factor that `MMOE_MT.forward` applies to
the tower activations is a sigmoid output multiplied by 2
(`lhuc_output = lhuc_output*2`, mmoe_mt.py line 185), so it lies in the open
interval (0, 2) — not (0, 1). -/
theorem lhuc_factor_range (e : ℚ → ℚ) (W1 W2 : M2) (emb : List ℚ)
    (he : ∀ x, 0 < e x) :
    ∀ y ∈ lhucRowMT e W1 W2 emb, 0 < y ∧ y < 2 := by
  intro y hy
  rcases List.mem_map.mp hy with ⟨z, hz, rfl⟩
  rcases List.mem_map.mp hz with ⟨x, _, rfl⟩
  have h1 : (0 : ℚ) < 1 + e (-x) := by linarith [he (-x)]
  constructor
  · have : 0 < sigmoidQ e x := by
      rw [sigmoidQ]
      exact div_pos one_pos h1
    linarith
  · have : sigmoidQ e x < 1 := by
      rw [sigmoidQ]
      rw [div_lt_one h1]
      linarith [he (-x)]
    linarith

/-- Helper: value of the MT LHUC block on zero weights with `e 0 = 1` (the
value the real exponential takes at 0). -/
theorem lhucRowMT_zero_eval :
    lhucRowMT (fun _ => 1) [[0]] [[0]] [0] = [1] := by
  norm_num [lhucRowMT, matvec, dotQ, sigmoidQ, reluQ]

/-- C3 witness: the factor 1 produced below lies in (0, 2). -/
theorem lhuc_factor_range_witness :
    (1 : ℚ) ∈ lhucRowMT (fun _ => 1) [[0]] [[0]] [0] ∧
    (0 : ℚ) < 1 ∧ (1 : ℚ) < 2 :=
  ⟨by rw [lhucRowMT_zero_eval]; exact List.mem_singleton.mpr rfl,
    lhuc_factor_range (fun _ => 1) [[0]] [[0]] [0] (fun _ => one_pos) 1
      (by rw [lhucRowMT_zero_eval]; exact List.mem_singleton.mpr rfl)⟩

/-- C3 counterexample: with all-zero LHUC weights the pre-sigmoid input is 0,
where the real exponential also takes the value 1, so the code produces the
rescaling factor `2 * sigmoid 0 = 1`, which does not lie in the open
interval (0, 1). -/
theorem lhuc_factor_not_in_unit_interval :
    (1 : ℚ) ∈ lhucRowMT (fun _ => 1) [[0]] [[0]] [0] ∧
    ¬((0 : ℚ) < 1 ∧ (1 : ℚ) < 1) := by
  rw [lhucRowMT_zero_eval]
  norm_num

/-! ## C6: the `usetrans` flag selects the attention input path -/

/-- C6.  In both forward passes the DNN input fed to the experts and gates is
the self-attention path exactly when the substring `'usetrans'` occurs in
`flag`: the concatenated sparse embeddings pass through the three stacked
self-attention layers, are flattened, and are concatenated with the dense
values when dense features exist; otherwise it is
`combined_dnn_input(sparse_embedding_list, dense_value_list)`
(mmoe_mt.py lines 144-157, mmoe_mt_att.py lines 145-157).  Both `forwardMT`
and `forwardATT` consume `mkDnnInputs`, the row-wise map of this input. -/
theorem dnn_input_usetrans (p : MParams) (row : List ℚ) :
    (pythonInStr "usetrans" p.flag = true →
      rowDnnInput p row =
        (if p.denseFs.isEmpty then
          (p.attF 2 (p.attF 1 (p.attF 0 (p.sparseF row)))).flatten
        else
          (p.attF 2 (p.attF 1 (p.attF 0 (p.sparseF row)))).flatten ++
            denseCat p row)) ∧
    (pythonInStr "usetrans" p.flag = false →
      rowDnnInput p row = (p.sparseF row).flatten ++ denseCat p row) ∧
    (∀ X : M2, mkDnnInputs p X = X.map (rowDnnInput p)) := by
  refine ⟨?_, ?_, fun _ => rfl⟩
  · intro h
    rw [rowDnnInput, if_pos h]
  · intro h
    rw [rowDnnInput, if_neg (by rw [h]; exact Bool.false_ne_true)]

/-- C6 witness: with flag `'sota'` the DNN input is the
`combined_dnn_input` path. -/
theorem dnn_input_usetrans_witness :
    pythonInStr "usetrans" concreteP.flag = false ∧
    rowDnnInput concreteP [0] =
      (concreteP.sparseF [0]).flatten ++ denseCat concreteP [0] :=
  ⟨by decide, (dnn_input_usetrans concreteP [0]).2.1 (by decide)⟩

/-! ## C7: experts are shared and task-agnostic -/

/-- C7.  The stacked expert tensor is computed from the DNN input alone —
each expert `k`'s output depends only on `k` and the row, with no task
index in scope — and every task's gated mixture consumes the same
`expertsOf` tensor (mmoe_mt.py lines 160-176, mmoe_mt_att.py lines
161-176). -/
theorem experts_shared_across_tasks (p : MParams) (inputs : M2) :
    expertsOf p inputs =
      inputs.map (fun r => (List.range p.E).map (fun k => p.expertF k r)) ∧
    (∀ i, mmoePre p inputs i =
      List.zipWith (fun inp erow => [wsum (rowGateWeights p i inp) erow])
        inputs (expertsOf p inputs)) := by
  constructor
  · rfl
  · intro i
    rw [expertsOf, List.zipWith_map_right, List.zipWith_same]
    rfl

/-! ## List lemmas for the batch pipeline -/

theorem headD_map_range {α : Type u} (f : Nat → α) (n : Nat) (d : α)
    (hn : 0 < n) : ((List.range n).map f).headD d = f 0 := by
  rcases n with _ | m
  · omega
  · rw [List.range_succ_eq_map]
    rfl

theorem map_of_length_one {α : Type u} {β : Type v} (f : α → β) (l : List α)
    (d : α) (h : l.length = 1) : l.map f = [f (l.headD d)] := by
  rcases l with _ | ⟨a, _ | _⟩ <;> simp_all

theorem map_singleton_flatten {α : Type u} {β : Type v} (f : α → β)
    (l : List α) : (l.map (fun x => [f x])).flatten = l.map f := by
  induction l with
  | nil => rfl
  | cons a as ih => simp [ih]

theorem zipWith_map_same {α : Type u} {β γ δ : Type v} (k : β → γ → δ)
    (f : α → β) (g : α → γ) (L : List α) :
    List.zipWith k (L.map f) (L.map g) = L.map (fun x => k (f x) (g x)) := by
  induction L with
  | nil => rfl
  | cons a as ih => simp [ih]

theorem list_eq_range_map_getD {α : Type u} (L : List α) (d : α) :
    L = (List.range L.length).map (fun r => L.getD r d) := by
  induction L with
  | nil => rfl
  | cons a as ih =>
    rw [List.length_cons, List.range_succ_eq_map, List.map_cons, List.map_map]
    have h2 : ((List.range as.length).map
        (fun r => (a :: as).getD (Nat.succ r) d)) = as := by
      have : (fun r => (a :: as).getD (Nat.succ r) d) =
          (fun r => as.getD r d) := by
        funext r
        rfl
      rw [this]
      exact ih.symm
    rw [show ((fun r => (a :: as).getD r d) ∘ Nat.succ) =
      (fun r => (a :: as).getD (Nat.succ r) d) from rfl, h2]
    rfl

theorem map_const_nil {α : Type u} (L : List α) :
    L.map (fun _ => ([] : List ℚ)) = List.replicate L.length [] := by
  induction L with
  | nil => rfl
  | cons a as ih => simp [ih, List.replicate_succ]

theorem foldr_zip_append {α : Type u} (g : Nat → α → ℚ) (L : List α) :
    ∀ is : List Nat,
      ((is.map (fun i => L.map (fun x => [g i x]))).foldr
        (fun a acc => List.zipWith (· ++ ·) a acc)
        (List.replicate L.length ([] : List ℚ))) =
      L.map (fun x => is.map (fun i => g i x)) := by
  intro is
  induction is with
  | nil =>
    simp [map_const_nil]
  | cons i is ih =>
    rw [List.map_cons, List.foldr_cons, ih, zipWith_map_same]
    simp

theorem catR2_cols {α : Type u} (g : Nat → α → ℚ) (L : List α)
    (is : List Nat) (his : is ≠ []) :
    catR2 (is.map (fun i => L.map (fun x => [g i x]))) =
      some (L.map (fun x => is.map (fun i => g i x))) := by
  rcases is with _ | ⟨i, is2⟩
  · exact absurd rfl his
  · rw [catR2]
    rw [if_neg (by simp)]
    have hall : (((i :: is2).map (fun j => L.map (fun x => [g j x]))).all
        (fun x => x.length =
          ((((i :: is2).map (fun j => L.map (fun x => [g j x]))).headD []).length))) =
          true := by
      rw [List.all_eq_true]
      intro m hm
      rcases List.mem_map.mp hm with ⟨j, _, rfl⟩
      simp
    rw [if_pos hall]
    have hfold := foldr_zip_append g L (i :: is2)
    have hhead : (((i :: is2).map (fun j => L.map (fun x => [g j x]))).headD []).length =
        L.length := by simp
    rw [hhead, hfold]

theorem optMapAll_cons_none {α : Type u} {β : Type v} (f : α → Option β)
    (a : α) (l : List α) (h : f a = none) : optMapAll f (a :: l) = none := by
  simp [optMapAll, h]

theorem optMapAll_map {α : Type u} {β γ : Type v} (f : β → Option γ)
    (h : α → β) (l : List α) :
    optMapAll f (l.map h) = optMapAll (fun a => f (h a)) l := by
  induction l with
  | nil => rfl
  | cons a as ih => simp only [List.map_cons, optMapAll, ih]

/-! ## Evaluation lemmas for the tensor operations -/

theorem rowMix_length (p : MParams) (i : Nat) (inp : List ℚ)
    (hE : 0 < p.E) (hlen : ∀ k v, (p.expertF k v).length = p.expertDim) :
    (rowMix p i inp).length = p.expertDim := by
  rw [rowMix, wsum, List.length_map, List.length_range, rowExperts,
    headD_map_range _ _ _ hE]
  exact hlen 0 inp

theorem squeeze3_map_singleton_r2 {α : Type u} (h : α → List ℚ) (L : List α)
    (d : Nat) (hlen : ∀ x ∈ L, (h x).length = d) (hL2 : 2 ≤ L.length)
    (hd : 2 ≤ d) :
    squeeze3 (L.map (fun x => [h x])) = some (Tsr.r2 (L.map h)) := by
  rcases L with _ | ⟨a, L2⟩
  · simp at hL2
  simp only [List.length_cons] at hL2
  have hda : (h a).length = d := hlen a (by simp)
  subst hda
  have hdims : dims3 ((a :: L2).map (fun x => [h x])) =
      some (L2.length + 1, 1, (h a).length) := by
    simp only [dims3, List.map_cons, List.headD_cons, List.length_cons]
    rw [if_pos]
    · simp
    · rw [List.all_eq_true]
      intro r hr
      rcases List.mem_cons.mp hr with rfl | hr2
      · simp
      · rcases List.mem_map.mp hr2 with ⟨x, hx, rfl⟩
        simp [hlen x (List.mem_cons_of_mem a hx)]
  simp only [squeeze3, hdims]
  have hb1 : ((L2.length + 1 : Nat) != 1) = true := by
    simp only [bne_iff_ne, Ne]
    omega
  have hd1 : (((h a).length : Nat) != 1) = true := by
    simp only [bne_iff_ne, Ne]
    omega
  have h11 : ((1 : Nat) != 1) = false := by decide
  simp only [List.filter_cons, hb1, hd1, h11, if_true, if_false,
    List.filter_nil, Bool.false_eq_true, List.length_map, List.length_cons]
  rw [if_neg (by omega)]
  simp [List.map_map, Function.comp]

theorem squeeze3_single_r1 (v : List ℚ) (hd : 2 ≤ v.length) :
    squeeze3 [[v]] = some (Tsr.r1 v) := by
  have hdims : dims3 [[v]] = some (1, 1, v.length) := by
    simp [dims3]
  simp only [squeeze3, hdims]
  have hd1 : ((v.length : Nat) != 1) = true := by
    simp only [bne_iff_ne, Ne]
    omega
  have h11 : ((1 : Nat) != 1) = false := by decide
  simp only [List.filter_cons, hd1, h11, if_true, if_false,
    List.filter_nil, Bool.false_eq_true]
  simp

theorem applyLastTT_r2_map {α : Type u} (n : Nat) (f : List ℚ → List ℚ)
    (h : α → List ℚ) (L : List α) (hlen : ∀ x ∈ L, (h x).length = n) :
    applyLastTT n f (Tsr.r2 (L.map h)) =
      some (Tsr.r2 (L.map (fun x => f (h x)))) := by
  simp only [applyLastTT]
  rw [if_pos]
  · rw [List.map_map]
    rfl
  · rw [List.all_eq_true]
    intro r hr
    rcases List.mem_map.mp hr with ⟨x, hx, rfl⟩
    simp [hlen x hx]

theorem applyLastTT_r1_eval (n : Nat) (f : List ℚ → List ℚ) (v : List ℚ)
    (hv : v.length = n) : applyLastTT n f (Tsr.r1 v) = some (Tsr.r1 (f v)) := by
  simp [applyLastTT, hv]

theorem mulTT_r2_maps {α : Type u} (f g : α → List ℚ) (L : List α) (n : Nat)
    (hf : ∀ x ∈ L, (f x).length = n) (hg : ∀ x ∈ L, (g x).length = n) :
    mulTT (Tsr.r2 (L.map f)) (Tsr.r2 (L.map g)) =
      some (Tsr.r2 (L.map (fun x => List.zipWith (· * ·) (f x) (g x)))) := by
  simp only [mulTT, mulR2, List.length_map, if_true]
  rw [if_pos]
  · rw [zipWith_map_same]
  · rw [zipWith_map_same, List.all_eq_true]
    intro b hb
    rcases List.mem_map.mp hb with ⟨x, hx, rfl⟩
    simp [hf x hx, hg x hx]

theorem mulTT_r1_r2_single (v u : List ℚ) (hw : u.length = v.length) :
    mulTT (Tsr.r1 v) (Tsr.r2 [u]) =
      some (Tsr.r2 [List.zipWith (· * ·) v u]) := by
  simp [mulTT, hw]

theorem mapTT_r2_map {α : Type u} (f : ℚ → ℚ) (h : α → List ℚ) (L : List α) :
    mapTT f (Tsr.r2 (L.map h)) = Tsr.r2 (L.map (fun x => (h x).map f)) := by
  simp [mapTT, List.map_map]

theorem lhucRowMT_length (e : ℚ → ℚ) (W1 W2 : M2) (emb : List ℚ) :
    (lhucRowMT e W1 W2 emb).length = W2.length := by
  simp [lhucRowMT, matvec]

theorem lhucRowATT_length (e : ℚ → ℚ) (W1 W2 : M2) (v : List ℚ) :
    (lhucRowATT e W1 W2 v).length = W2.length := by
  simp [lhucRowATT, matvec]

theorem catLastTT_r1_eval (ts : List Tsr) (vs : List (List ℚ))
    (h1 : optMapAll asR1 ts = some vs) (h2 : vs.isEmpty = false) :
    catLastTT ts = some (Tsr.r1 vs.flatten) := by
  rw [catLastTT, h1]
  simp [h2]

theorem catLastTT_r2_eval (ts : List Tsr) (ms : List M2)
    (h1 : optMapAll asR1 ts = none) (h2 : optMapAll asR2 ts = some ms) :
    catLastTT ts = (catR2 ms).map Tsr.r2 := by
  rw [catLastTT, h1, h2]

theorem taskOutMT_char (p : MParams) (X : M2) (i : Nat) (hL : MLaws p)
    (hcase : 2 ≤ X.length ∨ (X.length = 1 ∧ p.towerNonempty = true)) :
    taskOutMT p (mkDnnInputs p X)
      (Tsr.r2 (X.map (fun row =>
        lhucRowMT p.e p.lhucW1 p.lhucW2 (domainEmbRow p row)))) i =
      some (Tsr.r2 (X.map (fun row => [rowPredMT p row i]))) := by
  have hE0 : 0 < p.E := by have := hL.numExpertsGe; omega
  have hmix : ∀ row : List ℚ,
      (rowMix p i (rowDnnInput p row)).length = p.expertDim :=
    fun row => rowMix_length p i _ hE0 hL.expertLen
  have hpre : mmoePre p (mkDnnInputs p X) i =
      X.map (fun row => [rowMix p i (rowDnnInput p row)]) := by
    rw [mmoePre, mkDnnInputs, List.map_map]
    rfl
  have hglen : ∀ row : List ℚ,
      (lhucRowMT p.e p.lhucW1 p.lhucW2 (domainEmbRow p row)).length = 64 := by
    intro row
    rw [lhucRowMT_length]
    exact hL.lhucW2Len
  have htlen : ∀ row : List ℚ,
      (p.towerF i (rowMix p i (rowDnnInput p row))).length = 64 := by
    intro row
    rw [hL.towerLen]
    exact hL.towerDim64
  have hzlen : ∀ row : List ℚ,
      (List.zipWith (· * ·) (p.towerF i (rowMix p i (rowDnnInput p row)))
        (lhucRowMT p.e p.lhucW1 p.lhucW2 (domainEmbRow p row))).length =
        p.towerDim := by
    intro row
    simp [List.length_zipWith, htlen, hglen, hL.towerDim64]
  rcases hcase with hb | ⟨hb1, ht⟩
  · -- batch size at least 2: the squeeze keeps the batch dimension
    rw [taskOutMT, hpre,
      squeeze3_map_singleton_r2 _ _ _ (fun row _ => hmix row) hb hL.expertDimGe,
      Option.some_bind]
    rcases htower : p.towerNonempty with _ | _
    · -- empty tower list: final layer applied to the mixture directly
      rw [if_neg Bool.false_ne_true]
      rw [applyLastTT_r2_map _ _ _ _ (fun row _ => hmix row), Option.map_some',
        mapTT_r2_map]
      refine congrArg _ (congrArg _ (List.map_congr_left ?_))
      intro row _
      rw [map_of_length_one _ _ (0 : ℚ) (hL.towerFinalLen i _)]
      simp only [rowPredMT, htower, Bool.false_eq_true, if_false]
    · -- tower DNN, LHUC rescaling, final layer
      rw [if_pos rfl]
      rw [applyLastTT_r2_map _ _ _ _ (fun row _ => hmix row), Option.some_bind,
        mulTT_r2_maps _ _ _ 64 (fun row _ => htlen row) (fun row _ => hglen row),
        Option.some_bind,
        applyLastTT_r2_map _ _ _ _ (fun row _ => hzlen row), Option.map_some',
        mapTT_r2_map]
      refine congrArg _ (congrArg _ (List.map_congr_left ?_))
      intro row _
      rw [map_of_length_one _ _ (0 : ℚ) (hL.towerFinalLen i _)]
      simp only [rowPredMT, htower, if_true]
  · -- batch size 1 with a tower: the squeeze drops the batch dimension and
    -- broadcasting restores it
    obtain ⟨x, rfl⟩ : ∃ x, X = [x] := by
      rcases X with _ | ⟨x, _ | _⟩
      · simp at hb1
      · exact ⟨x, rfl⟩
      · simp at hb1
    rw [taskOutMT, hpre]
    simp only [List.map_cons, List.map_nil]
    rw [squeeze3_single_r1 _ (by rw [hmix]; exact hL.expertDimGe),
      Option.some_bind, if_pos ht,
      applyLastTT_r1_eval _ _ _ (hmix x), Option.some_bind,
      mulTT_r1_r2_single _ _ (by rw [htlen, hglen]), Option.some_bind]
    rw [show [List.zipWith (· * ·) (p.towerF i (rowMix p i (rowDnnInput p x)))
        (lhucRowMT p.e p.lhucW1 p.lhucW2 (domainEmbRow p x))] =
      [x].map (fun row => List.zipWith (· * ·)
        (p.towerF i (rowMix p i (rowDnnInput p row)))
        (lhucRowMT p.e p.lhucW1 p.lhucW2 (domainEmbRow p row))) from rfl]
    rw [applyLastTT_r2_map _ _ _ _ (fun row _ => hzlen row), Option.map_some',
      mapTT_r2_map]
    simp only [List.map_cons, List.map_nil]
    rw [map_of_length_one _ _ (0 : ℚ) (hL.towerFinalLen i _)]
    simp only [rowPredMT, ht, if_true]

theorem mapTT_r1_eval (f : ℚ → ℚ) (v : List ℚ) :
    mapTT f (Tsr.r1 v) = Tsr.r1 (v.map f) := rfl

theorem dembsOf_eval (p : MParams) (X : M2) (hX : XOk p X) :
    dembsOf p X = some (X.map (domainEmbRow p)) := by
  refine optMapAll_eq_map _ _ _ (fun row hrow => ?_)
  rcases hX row hrow with ⟨_, h0, h1⟩
  rw [domainLookup, if_pos ⟨h0, by omega⟩]
  rfl

theorem forwardMT_char_r2 (p : MParams) (X : M2) (hL : MLaws p) (hX : XOk p X)
    (hcase : 2 ≤ X.length ∨ (X.length = 1 ∧ p.towerNonempty = true)) :
    forwardMT p X =
      some (Tsr.r2 (X.map (fun row => (List.range p.T).map (rowPredMT p row)))) := by
  simp only [forwardMT]
  rw [dembsOf_eval p X hX, Option.some_bind, List.map_map]
  simp only [Function.comp_def]
  rw [optMapAll_eq_map _
    (fun i => Tsr.r2 (X.map (fun row => [rowPredMT p row i]))) _
    (fun i _ => taskOutMT_char p X i hL hcase), Option.some_bind]
  have hT2 : 2 ≤ p.T := hL.numTasksGe
  have h1 : optMapAll asR1 ((List.range p.T).map
      (fun i => Tsr.r2 (X.map (fun row => [rowPredMT p row i])))) = none := by
    obtain ⟨T1, hT⟩ : ∃ T1, p.T = T1 + 1 := ⟨p.T - 1, by omega⟩
    rw [hT, List.range_succ_eq_map, List.map_cons]
    exact optMapAll_cons_none _ _ _ rfl
  have h2 : optMapAll asR2 ((List.range p.T).map
      (fun i => Tsr.r2 (X.map (fun row => [rowPredMT p row i])))) =
      some ((List.range p.T).map
        (fun i => X.map (fun row => [rowPredMT p row i]))) := by
    rw [optMapAll_map]
    exact optMapAll_eq_map _ _ _ (fun m _ => rfl)
  rw [catLastTT_r2_eval _ _ h1 h2,
    catR2_cols (fun i row => rowPredMT p row i) X (List.range p.T)
      (by simp only [Ne, List.range_eq_nil]; omega),
    Option.map_some']

theorem taskOutMT_char_b1_noTower (p : MParams) (x : List ℚ) (lh : Tsr)
    (i : Nat) (hL : MLaws p) (ht : p.towerNonempty = false) :
    taskOutMT p (mkDnnInputs p [x]) lh i =
      some (Tsr.r1 [rowPredMT p x i]) := by
  have hE0 : 0 < p.E := by have := hL.numExpertsGe; omega
  have hmix : (rowMix p i (rowDnnInput p x)).length = p.expertDim :=
    rowMix_length p i _ hE0 hL.expertLen
  have hpre : mmoePre p (mkDnnInputs p [x]) i =
      [[rowMix p i (rowDnnInput p x)]] := rfl
  rw [taskOutMT, hpre,
    squeeze3_single_r1 _ (by rw [hmix]; exact hL.expertDimGe),
    Option.some_bind, if_neg (by rw [ht]; exact Bool.false_ne_true),
    applyLastTT_r1_eval _ _ _ hmix, Option.map_some', mapTT_r1_eval,
    map_of_length_one _ _ (0 : ℚ) (hL.towerFinalLen i _)]
  simp only [rowPredMT, ht, Bool.false_eq_true, if_false]

theorem forwardMT_char_r1 (p : MParams) (X : M2) (hL : MLaws p) (hX : XOk p X)
    (hb1 : X.length = 1) (ht : p.towerNonempty = false) :
    forwardMT p X =
      some (Tsr.r1 ((List.range p.T).map (rowPredMT p (X.headD [])))) := by
  obtain ⟨x, rfl⟩ : ∃ x, X = [x] := by
    rcases X with _ | ⟨x, _ | _⟩
    · simp at hb1
    · exact ⟨x, rfl⟩
    · simp at hb1
  simp only [forwardMT]
  rw [dembsOf_eval p [x] hX, Option.some_bind,
    optMapAll_eq_map _ (fun i => Tsr.r1 [rowPredMT p x i]) _
      (fun i _ => taskOutMT_char_b1_noTower p x _ i hL ht), Option.some_bind]
  have h1 : optMapAll asR1 ((List.range p.T).map
      (fun i => Tsr.r1 [rowPredMT p x i])) =
      some ((List.range p.T).map (fun i => [rowPredMT p x i])) := by
    rw [optMapAll_map]
    exact optMapAll_eq_map _ _ _ (fun v _ => rfl)
  have hT2 : 2 ≤ p.T := hL.numTasksGe
  have hne : (((List.range p.T).map
      (fun i => [rowPredMT p x i])).isEmpty) = false := by
    obtain ⟨T1, hT⟩ : ∃ T1, p.T = T1 + 1 := ⟨p.T - 1, by omega⟩
    rw [hT, List.range_succ_eq_map, List.map_cons]
    rfl
  rw [catLastTT_r1_eval _ _ h1 hne, map_singleton_flatten]
  rfl

theorem zipWith_len_check (A B : M2) (n : Nat)
    (hA : ∀ r ∈ A, r.length = n) (hB : ∀ r ∈ B, r.length = n) :
    ((List.zipWith (fun a b => a.length == b.length) A B).all id) = true := by
  induction A generalizing B with
  | nil => simp
  | cons a as ih =>
    rcases B with _ | ⟨b, bs⟩
    · simp
    · simp only [List.zipWith_cons_cons, List.all_cons, id,
        Bool.and_eq_true]
      refine ⟨?_, ih bs (fun r hr => hA r (List.mem_cons_of_mem a hr))
        (fun r hr => hB r (List.mem_cons_of_mem b hr))⟩
      rw [hA a (List.mem_cons_self a as), hB b (List.mem_cons_self b bs)]
      exact beq_self_eq_true n

theorem mulTT_r2_eval (A B : M2) (n : Nat) (hlen : A.length = B.length)
    (hA : ∀ r ∈ A, r.length = n) (hB : ∀ r ∈ B, r.length = n) :
    mulTT (Tsr.r2 A) (Tsr.r2 B) =
      some (Tsr.r2 (List.zipWith (fun a b => List.zipWith (· * ·) a b) A B)) := by
  simp only [mulTT, mulR2]
  rw [if_pos hlen, if_pos (zipWith_len_check A B n hA hB)]

theorem mem_of_getD {α : Type u} (l : List α) (r : Nat) (d : α)
    (h : r < l.length) : l.getD r d ∈ l := by
  induction l generalizing r with
  | nil => simp at h
  | cons a as ih =>
    rcases r with _ | r2
    · simp
    · simp only [List.getD_cons_succ]
      exact List.mem_cons_of_mem a
        (ih r2 (by simp only [List.length_cons] at h; omega))

theorem taskOutATT_char (p : MParams) (X : M2) (i : Nat) (hL : MLaws p)
    (hb : 2 ≤ X.length) (ht : p.towerNonempty = true) :
    taskOutATT p (mkDnnInputs p X) (domainMat p X) i =
      some (Tsr.r2 ((List.range X.length).map
        (fun r => [attValATT p X i r]))) := by
  have hE0 : 0 < p.E := by have := hL.numExpertsGe; omega
  have hmix : ∀ row : List ℚ,
      (rowMix p i (rowDnnInput p row)).length = p.expertDim :=
    fun row => rowMix_length p i _ hE0 hL.expertLen
  have hpre : mmoePre p (mkDnnInputs p X) i =
      X.map (fun row => [rowMix p i (rowDnnInput p row)]) := by
    rw [mmoePre, mkDnnInputs, List.map_map]
    rfl
  have htm : towerMatATT p X i =
      X.map (fun row => p.towerF i (rowMix p i (rowDnnInput p row))) := by
    rw [towerMatATT, mkDnnInputs, List.map_map]
    rfl
  have hAl : (towerMatATT p X i).length = X.length := by
    rw [htm, List.length_map]
  have hBl : (attFactorRows p i (towerMatATT p X i) (domainMat p X)).length =
      X.length := by
    rw [attFactorRows, List.length_map, hL.attRowsLen, hAl]
  have hAmem : ∀ r ∈ towerMatATT p X i, r.length = 64 := by
    intro r hr
    rw [htm] at hr
    rcases List.mem_map.mp hr with ⟨row, _, rfl⟩
    rw [hL.towerLen]
    exact hL.towerDim64
  have hBmem : ∀ r ∈ attFactorRows p i (towerMatATT p X i) (domainMat p X),
      r.length = 64 := by
    intro r hr
    rcases List.mem_map.mp hr with ⟨v, _, rfl⟩
    rw [lhucRowATT_length]
    exact hL.lhucW2iLen i
  rw [taskOutATT, hpre,
    squeeze3_map_singleton_r2 _ _ _ (fun row _ => hmix row) hb hL.expertDimGe,
    Option.some_bind, if_pos ht,
    applyLastTT_r2_map _ _ _ _ (fun row _ => hmix row), Option.some_bind]
  rw [← htm]
  simp only [asR2, Option.some_bind]
  rw [mulTT_r2_eval _ _ 64 (by rw [hAl, hBl]) hAmem hBmem, Option.some_bind]
  have e1 : towerMatATT p X i =
      (List.range X.length).map (fun r => (towerMatATT p X i).getD r []) := by
    have := list_eq_range_map_getD (towerMatATT p X i) []
    rw [hAl] at this
    exact this
  have e2 : attFactorRows p i (towerMatATT p X i) (domainMat p X) =
      (List.range X.length).map
        (fun r => (attFactorRows p i (towerMatATT p X i) (domainMat p X)).getD r []) := by
    have := list_eq_range_map_getD
      (attFactorRows p i (towerMatATT p X i) (domainMat p X)) []
    rw [hBl] at this
    exact this
  have hz : List.zipWith (fun a b => List.zipWith (· * ·) a b)
      (towerMatATT p X i)
      (attFactorRows p i (towerMatATT p X i) (domainMat p X)) =
      (List.range X.length).map (fun r =>
        List.zipWith (· * ·) ((towerMatATT p X i).getD r [])
          ((attFactorRows p i (towerMatATT p X i) (domainMat p X)).getD r [])) := by
    rw [← zipWith_map_same (fun a b => List.zipWith (· * ·) a b)
      (fun r => (towerMatATT p X i).getD r [])
      (fun r => (attFactorRows p i (towerMatATT p X i) (domainMat p X)).getD r [])
      (List.range X.length), ← e1, ← e2]
  rw [hz]
  have hzl : ∀ r ∈ List.range X.length,
      (List.zipWith (· * ·) ((towerMatATT p X i).getD r [])
        ((attFactorRows p i (towerMatATT p X i) (domainMat p X)).getD r [])).length =
        p.towerDim := by
    intro r hr
    have hrb := List.mem_range.mp hr
    rw [List.length_zipWith,
      hAmem _ (mem_of_getD _ r [] (by omega)),
      hBmem _ (mem_of_getD _ r [] (by omega))]
    simp [hL.towerDim64]
  rw [applyLastTT_r2_map _ _ _ _ hzl, Option.map_some', mapTT_r2_map]
  refine congrArg _ (congrArg _ (List.map_congr_left ?_))
  intro r _
  rw [map_of_length_one _ _ (0 : ℚ) (hL.towerFinalLen i _)]
  rfl

theorem taskOutATT_char_noTower (p : MParams) (X : M2) (dembs : M2) (i : Nat)
    (hL : MLaws p) (hb : 2 ≤ X.length) (ht : p.towerNonempty = false) :
    taskOutATT p (mkDnnInputs p X) dembs i =
      some (Tsr.r2 (X.map (fun row => [rowPredMT p row i]))) := by
  have hE0 : 0 < p.E := by have := hL.numExpertsGe; omega
  have hmix : ∀ row : List ℚ,
      (rowMix p i (rowDnnInput p row)).length = p.expertDim :=
    fun row => rowMix_length p i _ hE0 hL.expertLen
  have hpre : mmoePre p (mkDnnInputs p X) i =
      X.map (fun row => [rowMix p i (rowDnnInput p row)]) := by
    rw [mmoePre, mkDnnInputs, List.map_map]
    rfl
  rw [taskOutATT, hpre,
    squeeze3_map_singleton_r2 _ _ _ (fun row _ => hmix row) hb hL.expertDimGe,
    Option.some_bind, if_neg (by rw [ht]; exact Bool.false_ne_true),
    applyLastTT_r2_map _ _ _ _ (fun row _ => hmix row), Option.map_some',
    mapTT_r2_map]
  refine congrArg _ (congrArg _ (List.map_congr_left ?_))
  intro row _
  rw [map_of_length_one _ _ (0 : ℚ) (hL.towerFinalLen i _)]
  simp only [rowPredMT, ht, Bool.false_eq_true, if_false]

theorem forwardATT_char_tower (p : MParams) (X : M2) (hL : MLaws p)
    (hX : XOk p X) (hb : 2 ≤ X.length) (ht : p.towerNonempty = true) :
    forwardATT p X =
      some (Tsr.r2 ((List.range X.length).map
        (fun r => (List.range p.T).map (fun i => attValATT p X i r)))) := by
  have hdembs : dembsOf p X = some (domainMat p X) := dembsOf_eval p X hX
  simp only [forwardATT]
  rw [hdembs, Option.some_bind,
    optMapAll_eq_map _
      (fun i => Tsr.r2 ((List.range X.length).map
        (fun r => [attValATT p X i r]))) _
      (fun i _ => taskOutATT_char p X i hL hb ht), Option.some_bind]
  have hT2 : 2 ≤ p.T := hL.numTasksGe
  have h1 : optMapAll asR1 ((List.range p.T).map
      (fun i => Tsr.r2 ((List.range X.length).map
        (fun r => [attValATT p X i r])))) = none := by
    obtain ⟨T1, hT⟩ : ∃ T1, p.T = T1 + 1 := ⟨p.T - 1, by omega⟩
    rw [hT, List.range_succ_eq_map, List.map_cons]
    exact optMapAll_cons_none _ _ _ rfl
  have h2 : optMapAll asR2 ((List.range p.T).map
      (fun i => Tsr.r2 ((List.range X.length).map
        (fun r => [attValATT p X i r])))) =
      some ((List.range p.T).map
        (fun i => (List.range X.length).map (fun r => [attValATT p X i r]))) := by
    rw [optMapAll_map]
    exact optMapAll_eq_map _ _ _ (fun m _ => rfl)
  rw [catLastTT_r2_eval _ _ h1 h2,
    catR2_cols (fun i r => attValATT p X i r) (List.range X.length)
      (List.range p.T) (by simp only [Ne, List.range_eq_nil]; omega),
    Option.map_some']

theorem forwardATT_char_noTower (p : MParams) (X : M2) (hL : MLaws p)
    (hX : XOk p X) (hb : 2 ≤ X.length) (ht : p.towerNonempty = false) :
    forwardATT p X =
      some (Tsr.r2 (X.map (fun row => (List.range p.T).map (rowPredMT p row)))) := by
  have hdembs : dembsOf p X = some (domainMat p X) := dembsOf_eval p X hX
  simp only [forwardATT]
  rw [hdembs, Option.some_bind,
    optMapAll_eq_map _
      (fun i => Tsr.r2 (X.map (fun row => [rowPredMT p row i]))) _
      (fun i _ => taskOutATT_char_noTower p X _ i hL hb ht), Option.some_bind]
  have hT2 : 2 ≤ p.T := hL.numTasksGe
  have h1 : optMapAll asR1 ((List.range p.T).map
      (fun i => Tsr.r2 (X.map (fun row => [rowPredMT p row i])))) = none := by
    obtain ⟨T1, hT⟩ : ∃ T1, p.T = T1 + 1 := ⟨p.T - 1, by omega⟩
    rw [hT, List.range_succ_eq_map, List.map_cons]
    exact optMapAll_cons_none _ _ _ rfl
  have h2 : optMapAll asR2 ((List.range p.T).map
      (fun i => Tsr.r2 (X.map (fun row => [rowPredMT p row i])))) =
      some ((List.range p.T).map
        (fun i => X.map (fun row => [rowPredMT p row i]))) := by
    rw [optMapAll_map]
    exact optMapAll_eq_map _ _ _ (fun m _ => rfl)
  rw [catLastTT_r2_eval _ _ h1 h2,
    catR2_cols (fun i row => rowPredMT p row i) X (List.range p.T)
      (by simp only [Ne, List.range_eq_nil]; omega),
    Option.map_some']

theorem mkSimpleLaws (flag : String) (tower : Bool) :
    MLaws (mkSimpleP flag tower) := by
  refine ⟨?_, ?_, ?_, ?_, ?_, ?_, ?_, ?_, ?_, ?_, ?_, ?_⟩
  · exact Nat.le.refl
  · exact Nat.le.refl
  · exact Nat.le.refl
  · intro k v
    rfl
  · intro i v
    rfl
  · intro i v
    simp [mkSimpleP]
  · intro i v
    rfl
  · simp [mkSimpleP]
  · intro i
    simp [mkSimpleP]
  · rfl
  · intro i m d
    simp [mkSimpleP]
  · intro x
    exact one_pos

theorem concreteXOk : XOk concreteP concreteX := by
  unfold XOk
  decide

theorem noTowerXOk : XOk noTowerP noTowerX := by
  unfold XOk
  decide

/-! ## C2: output shape and per-column semantics of the two forward passes -/

/-- C2 (amended).  For every well-formed model and batch whose domain ids are
in range: with batch size `b ≥ 2` both forwards return a rank-2 tensor with
`b` rows and `num_tasks` columns whose entry `(r, i)` is task `i`'s
prediction for row `r` after that task's `PredictionLayer`; `MMOE_MT` also
does so for `b = 1` when `tower_dnn_hidden_units` is non-empty (the
squeezed rank-1 tower output broadcasts against the rank-2 LHUC output).
But for `b = 1` with empty `tower_dnn_hidden_units`, the `.squeeze()` of the
`(1, 1, dim)` mixture drops the batch dimension and `MMOE_MT.forward`
returns a rank-1 tensor of shape `(num_tasks,)`, so the claim fails at
`b = 1` in general. -/
theorem forward_output_shape_and_columns (p : MParams) (X : M2)
    (hL : MLaws p) (hX : XOk p X) :
    ((2 ≤ X.length ∨ (X.length = 1 ∧ p.towerNonempty = true)) →
      forwardMT p X = some (Tsr.r2 (X.map (fun row =>
        (List.range p.T).map (rowPredMT p row))))) ∧
    (X.length = 1 → p.towerNonempty = false →
      forwardMT p X = some (Tsr.r1 ((List.range p.T).map
        (rowPredMT p (X.headD []))))) ∧
    (2 ≤ X.length → p.towerNonempty = true →
      forwardATT p X = some (Tsr.r2 ((List.range X.length).map
        (fun r => (List.range p.T).map (fun i => attValATT p X i r))))) ∧
    (2 ≤ X.length → p.towerNonempty = false →
      forwardATT p X = some (Tsr.r2 (X.map (fun row =>
        (List.range p.T).map (rowPredMT p row))))) ∧
    (X.map (fun row => (List.range p.T).map (rowPredMT p row))).length =
      X.length ∧
    ((List.range X.length).map (fun r => (List.range p.T).map
      (fun i => attValATT p X i r))).length = X.length ∧
    (∀ row ∈ X, ((List.range p.T).map (rowPredMT p row)).length = p.T) :=
  ⟨fun h => forwardMT_char_r2 p X hL hX h,
   fun h1 h2 => forwardMT_char_r1 p X hL hX h1 h2,
   fun hb ht => forwardATT_char_tower p X hL hX hb ht,
   fun hb ht => forwardATT_char_noTower p X hL hX hb ht,
   by simp, by simp, fun row _ => by simp⟩

/-- C2 witness: both forwards evaluated on a concrete well-formed model with
batch size 2. -/
theorem forward_output_shape_and_columns_witness :
    forwardMT concreteP concreteX = some (Tsr.r2 (concreteX.map (fun row =>
      (List.range concreteP.T).map (rowPredMT concreteP row)))) ∧
    forwardATT concreteP concreteX = some (Tsr.r2
      ((List.range concreteX.length).map (fun r =>
        (List.range concreteP.T).map
          (fun i => attValATT concreteP concreteX i r)))) :=
  ⟨(forward_output_shape_and_columns concreteP concreteX
      (mkSimpleLaws "sota" true) concreteXOk).1 (Or.inl (by decide)),
   (forward_output_shape_and_columns concreteP concreteX
      (mkSimpleLaws "sota" true) concreteXOk).2.2.1 (by decide) rfl⟩

theorem noTower_rowPred_eval (i : Nat) :
    rowPredMT noTowerP [(0 : ℚ)] i = 3 / 2 := by
  have hflag : pythonInStr "usetrans" "sota" = false := by decide
  have hrange : List.range 2 = [0, 1] := rfl
  have hreg : ¬("regression" = "binary") := by decide
  norm_num [rowPredMT, noTowerP, mkSimpleP, rowDnnInput, hflag, denseCat,
    rowMix, rowGateWeights, softmaxQ, rowExperts, wsum, predQ, hrange,
    List.flatten, sigmoidQ, hreg]

/-- C2 counterexample: on a well-formed tower-less model with batch size 1,
`MMOE_MT.forward` returns the rank-1 tensor `[3/2, 3/2]` of shape
`(num_tasks,)` — not a rank-2 tensor of shape `(1, num_tasks)` — because
`.squeeze()` drops the batch dimension (mmoe_mt.py lines 174-175, 197, 200). -/
theorem forward_batch1_rank_collapse :
    noTowerX.length = 1 ∧
    forwardMT noTowerP noTowerX = some (Tsr.r1 [3 / 2, 3 / 2]) ∧
    (forwardMT noTowerP noTowerX).map rankTsr = some 1 ∧
    ¬(forwardMT noTowerP noTowerX).map rankTsr = some 2 := by
  have h := forwardMT_char_r1 noTowerP noTowerX (mkSimpleLaws "sota" false)
    noTowerXOk rfl rfl
  have hrange : List.range noTowerP.T = [0, 1] := rfl
  have hval : (List.range noTowerP.T).map (rowPredMT noTowerP (noTowerX.headD []))
      = [3 / 2, 3 / 2] := by
    rw [hrange]
    simp only [List.map_cons, List.map_nil]
    rw [show (noTowerX.headD [] : List ℚ) = [(0 : ℚ)] from rfl,
      noTower_rowPred_eval 0, noTower_rowPred_eval 1]
  rw [hval] at h
  refine ⟨rfl, h, ?_, ?_⟩
  · rw [h]
    rfl
  · rw [h]
    simp [rankTsr]

theorem getD_map {α : Type u} {β : Type v} (f : α → β) (l : List α) (r : Nat)
    (d : α) (d2 : β) (h : r < l.length) :
    (l.map f).getD r d2 = f (l.getD r d) := by
  induction l generalizing r with
  | nil => simp at h
  | cons a as ih =>
    rcases r with _ | r2
    · rfl
    · simp only [List.map_cons, List.getD_cons_succ]
      exact ih r2 (by simp only [List.length_cons] at h; omega)

/-! ## C5: per-task target attention and LHUC in `MMOE_MT_ATT` -/

/-- C5.  With towers configured, `MMOE_MT_ATT.forward` rescales each task's
tower activations row-wise by a factor computed from that task's own
`target_attention[i]` applied to (tower batch as query, domain-embedding
batch) followed by that task's own `lhuc[i]` block
(mmoe_mt_att.py lines 196-204): the full forward satisfies the `attValATT`
characterization, each rescale row is task `i`'s LHUC applied to the
corresponding attention row, and the factor depends only on the modules
indexed by `i` (two models agreeing on `target_attention[i]` and `lhuc[i]`
produce identical factors from the same inputs). -/
theorem att_rescale_per_task (p q : MParams) (X : M2) (i : Nat)
    (hL : MLaws p) (hX : XOk p X) (hb : 2 ≤ X.length)
    (ht : p.towerNonempty = true) :
    forwardATT p X = some (Tsr.r2 ((List.range X.length).map
      (fun r => (List.range p.T).map (fun j => attValATT p X j r)))) ∧
    (∀ r, r < X.length →
      (attFactorRows p i (towerMatATT p X i) (domainMat p X)).getD r [] =
        lhucRowATT p.e (p.lhucW1i i) (p.lhucW2i i)
          ((p.attB i (towerMatATT p X i) (domainMat p X)).getD r [])) ∧
    (p.attB i = q.attB i → p.lhucW1i i = q.lhucW1i i →
      p.lhucW2i i = q.lhucW2i i → p.e = q.e →
      ∀ tR dR : M2, attFactorRows p i tR dR = attFactorRows q i tR dR) := by
  refine ⟨forwardATT_char_tower p X hL hX hb ht, ?_, ?_⟩
  · intro r hr
    have hlen : (p.attB i (towerMatATT p X i) (domainMat p X)).length =
        X.length := by
      rw [hL.attRowsLen, towerMatATT, List.length_map, mkDnnInputs,
        List.length_map]
    rw [attFactorRows, getD_map _ _ _ [] [] (by rw [hlen]; exact hr)]
  · intro ha h1 h2 he tR dR
    rw [attFactorRows, attFactorRows, ha, h1, h2, he]

/-- C5 witness: the rescale row of task 0 for batch row 0 of the concrete
model equals task 0's LHUC applied to the attention row. -/
theorem att_rescale_per_task_witness :
    (attFactorRows concreteP 0 (towerMatATT concreteP concreteX 0)
      (domainMat concreteP concreteX)).getD 0 [] =
      lhucRowATT concreteP.e (concreteP.lhucW1i 0) (concreteP.lhucW2i 0)
        ((concreteP.attB 0 (towerMatATT concreteP concreteX 0)
          (domainMat concreteP concreteX)).getD 0 []) :=
  (att_rescale_per_task concreteP concreteP concreteX 0
    (mkSimpleLaws "sota" true) concreteXOk (by decide) rfl).2.1 0 (by decide)
